import Mathlib

/-!
# Metadata Image Cleaner — embedding of `src/App.tsx` (shipped inside `src/README.md`)

The repository is a single React component.  We embed the parts the
specification talks about:

* the metadata record built by `extractMetadata` (the `exifr` library calls
  are parameterised: their results, including thrown exceptions, are inputs
  of the Lean function, and the JS `try`/`catch` becomes a `match` on
  `Except`);
* the UI state (the four snapshotted fields, the two history stacks and the
  `isProcessing` flag) together with the event handlers that mutate it
  (`saveToHistory`, `handleUndo`, `handleRedo`, `handleReset`,
  `handleImageFile`, `handleCleanMetadata`, the clipboard-paste replace
  path, the Ctrl+D delete path, and the two drop handlers);
* the order of platform calls performed by `handleImageFile` and
  `handleCleanMetadata`, as event traces;
* the download file-name computation of `handleDownload`, including the
  regex replace `originalFileName.replace(/\.[^/.]+$/, '')`.

Purely visual state (`isDragging`, `notification`, `showJsonModal`) and the
DOM manipulation (`link.click()`, clearing the file-input ref) are not part
of any modelled handler's observable effect and are omitted; `notification`
messages appear in the event traces instead.
-/

/-- A section of parsed metadata as returned by `exifr` (an opaque
key/value object; the code only stores it under a display name). -/
abbrev SectionData := List (String × String)

/-- The (optional) section fields of the object returned by
`exifr.parse(file, {...})`; `none` models an absent (`undefined`, hence
falsy) field, `some` a present object (truthy). -/
structure ParsedMeta where
  ifd0 : Option SectionData
  ifd1 : Option SectionData
  exif : Option SectionData
  gps : Option SectionData
  iptc : Option SectionData
  icc : Option SectionData
  jfif : Option SectionData
  ihdr : Option SectionData
  xmp : Option SectionData
  tiff : Option SectionData
  interop : Option SectionData
  makerNote : Option SectionData
deriving DecidableEq, Repr

/-- The values stored in the `metadata` object built by `extractMetadata`. -/
inductive MetaVal where
  /-- The `'File Info'` object: built from `file.name`, `file.size`,
  `file.type` and `file.lastModified` (the KB string and the locale date
  string are display formatting of `fileSize` and `lastModified`). -/
  | info (fileName : String) (fileSize : Nat) (fileType : String)
      (lastModified : Int)
  /-- A metadata section copied from the `exifr.parse` result. -/
  | sec (d : SectionData)
  /-- The `'Embedded Thumbnail'` object: `{ 'Has Thumbnail': true, 'Size':
  byteLength + ' bytes' }`. -/
  | thumb (hasThumbnail : Bool) (byteLength : Nat)
  /-- The `'Extraction Error'` entry: `String(error)`. -/
  | err (s : String)
deriving DecidableEq, Repr

/-- The `metadata` object: keys in insertion order, as JS objects preserve
string-key insertion order. -/
abbrev ExifData := List (String × MetaVal)

/-- The fields of a DOM `File` used by the code. -/
structure JSFile where
  name : String
  size : Nat
  type : String
  lastModified : Int
deriving DecidableEq, Repr

/-- One conditional assignment `if (allMetadata.k) metadata['K'] = allMetadata.k`. -/
def optEntry (key : String) : Option SectionData → List (String × MetaVal)
  | none => []
  | some d => [(key, MetaVal.sec d)]

/-- The twelve conditional section assignments of `extractMetadata`, in
source order, guarded by `if (allMetadata)`. -/
def sectionEntries : Option ParsedMeta → List (String × MetaVal)
  | none => []
  | some pm =>
      optEntry "IFD0" pm.ifd0 ++ optEntry "IFD1" pm.ifd1 ++
      optEntry "EXIF" pm.exif ++ optEntry "GPS" pm.gps ++
      optEntry "IPTC" pm.iptc ++ optEntry "ICC Profile" pm.icc ++
      optEntry "JFIF" pm.jfif ++ optEntry "PNG IHDR" pm.ihdr ++
      optEntry "XMP" pm.xmp ++ optEntry "TIFF" pm.tiff ++
      optEntry "Interoperability" pm.interop ++
      optEntry "Maker Note" pm.makerNote

/-- `extractMetadata(file)`.  The two awaited `exifr` calls are
parameterised by their outcomes: `parseRes` is the result of
`exifr.parse` (`.error e` models a thrown exception, `.ok none` a falsy
result), `thumbRes` the result of `exifr.thumbnail` (`.ok (some n)` a
thumbnail of `n = byteLength` bytes).  The single `try` wraps both calls,
so a throwing `exifr.parse` skips `exifr.thumbnail`; either exception is
caught and recorded under `'Extraction Error'`.  The Lean function is
total: it returns an `ExifData` for every outcome, never an exception. -/
def extractMetadata (file : JSFile)
    (parseRes : Except String (Option ParsedMeta))
    (thumbRes : Except String (Option Nat)) : ExifData :=
  let base : ExifData :=
    [("File Info", MetaVal.info file.name file.size file.type file.lastModified)]
  match parseRes with
  | Except.error e => base ++ [("Extraction Error", MetaVal.err e)]
  | Except.ok am =>
      let withSections := base ++ sectionEntries am
      match thumbRes with
      | Except.error e => withSections ++ [("Extraction Error", MetaVal.err e)]
      | Except.ok none => withSections
      | Except.ok (some bl) =>
          withSections ++ [("Embedded Thumbnail", MetaVal.thumb true bl)]

/-- The `HistoryState` interface: the 4-field snapshot record stored in the
two history stacks. -/
structure HistoryState where
  originalImage : Option String
  originalFileName : String
  metadata : Option ExifData
  processedImage : Option String
deriving DecidableEq, Repr

/-- The component state the modelled handlers read and write: the four
snapshotted fields, the past stack `history` (most recent at the END, as
`setHistory([...history, snap])` appends), the future stack
`futureHistory` (most recent at the FRONT, as redo `shift`s), and the
`isProcessing` flag. -/
structure AppState where
  originalImage : Option String
  originalFileName : String
  metadata : Option ExifData
  processedImage : Option String
  history : List HistoryState
  futureHistory : List HistoryState
  isProcessing : Bool
deriving DecidableEq, Repr

/-- The snapshot object literal `{ originalImage, originalFileName,
metadata, processedImage }` built from the current state. -/
def snapshotOf (s : AppState) : HistoryState :=
  ⟨s.originalImage, s.originalFileName, s.metadata, s.processedImage⟩

/-- `saveToHistory`: append the current snapshot to the past stack and
clear the future stack. -/
def saveToHistory (s : AppState) : AppState :=
  { s with history := s.history ++ [snapshotOf s], futureHistory := [] }

/-- `handleUndo`: no-op on an empty past stack; otherwise `pop` the last
snapshot, prepend the current snapshot to the future stack, and restore the
four fields from the popped snapshot. -/
def handleUndo (s : AppState) : AppState :=
  match s.history.getLast? with
  | none => s
  | some prev =>
      { s with
        originalImage := prev.originalImage
        originalFileName := prev.originalFileName
        metadata := prev.metadata
        processedImage := prev.processedImage
        history := s.history.dropLast
        futureHistory := snapshotOf s :: s.futureHistory }

/-- `handleRedo`: no-op on an empty future stack; otherwise `shift` the
first snapshot, append the current snapshot to the past stack, and restore
the four fields from the shifted snapshot. -/
def handleRedo (s : AppState) : AppState :=
  match s.futureHistory with
  | [] => s
  | next :: rest =>
      { s with
        originalImage := next.originalImage
        originalFileName := next.originalFileName
        metadata := next.metadata
        processedImage := next.processedImage
        history := s.history ++ [snapshotOf s]
        futureHistory := rest }

/-- `handleReset`: clear the four fields (the file-input DOM ref is also
cleared, which has no modelled effect); the stacks are untouched. -/
def handleReset (s : AppState) : AppState :=
  { s with
    processedImage := none
    originalImage := none
    originalFileName := ""
    metadata := none }

/-- `handleImageFile(file)`: set `isProcessing`, clear the processed image,
store the file name, await `extractMetadata` and store its result, then
(in the `FileReader` `onload` callback, whose produced data URL is the
parameter `dataUrl`) store the original image and clear `isProcessing`. -/
def handleImageFile (file : JSFile)
    (parseRes : Except String (Option ParsedMeta))
    (thumbRes : Except String (Option Nat))
    (dataUrl : String) (s : AppState) : AppState :=
  { s with
    processedImage := none
    originalFileName := file.name
    metadata := some (extractMetadata file parseRes thumbRes)
    originalImage := some dataUrl
    isProcessing := false }

/-- Outcome of the platform half of `handleCleanMetadata`: either the
`img.onload` → canvas → `toBlob` callback chain succeeds and yields a blob
object URL, or `img.onerror` fires. -/
inductive CleanOutcome where
  | success (blobUrl : String)
  | loadError
deriving DecidableEq, Repr

/-- `handleCleanMetadata`: return unchanged when no original image is
loaded; otherwise `saveToHistory()`, set `isProcessing`, and then — in the
platform callbacks, whose outcome is the parameter — either store the blob
object URL as the processed image or just clear `isProcessing` on error. -/
def handleCleanMetadata (o : CleanOutcome) (s : AppState) : AppState :=
  match s.originalImage with
  | none => s
  | some _ =>
      let s1 := { saveToHistory s with isProcessing := true }
      match o with
      | CleanOutcome.success url =>
          { s1 with processedImage := some url, isProcessing := false }
      | CleanOutcome.loadError => { s1 with isProcessing := false }

/-- The clipboard-paste handler (`handlePaste`), for an image item: when an
image is already loaded (`originalImage || processedImage`) it calls
`saveToHistory()`, `handleReset()` and then (via `setTimeout`)
`handleImageFile(file)`; otherwise just `handleImageFile(file)`. -/
def handlePasteImage (file : JSFile)
    (parseRes : Except String (Option ParsedMeta))
    (thumbRes : Except String (Option Nat))
    (dataUrl : String) (s : AppState) : AppState :=
  if s.originalImage.isSome || s.processedImage.isSome then
    handleImageFile file parseRes thumbRes dataUrl (handleReset (saveToHistory s))
  else
    handleImageFile file parseRes thumbRes dataUrl s

/-- The Ctrl+D branch of `handleKeyDown`: when an image is loaded,
`saveToHistory()` then `handleReset()`; otherwise nothing. -/
def handleDeleteImage (s : AppState) : AppState :=
  if s.originalImage.isSome || s.processedImage.isSome then
    handleReset (saveToHistory s)
  else s

/-- The guard `files[0].type.startsWith('image/')` of the two drop
handlers, stated on the character list (prefix of the character sequence,
which is what `String.startsWith` checks) so that it evaluates. -/
def isImageType (t : String) : Bool :=
  "image/".data.isPrefixOf t.data

/-- The standalone `handleDrop` (attached to the empty-state drop zone):
for a dropped image file, when an image is already loaded it calls
`handleReset()` and then `handleImageFile` — with NO `saveToHistory()`;
otherwise just `handleImageFile`. -/
def handleDrop (file : JSFile)
    (parseRes : Except String (Option ParsedMeta))
    (thumbRes : Except String (Option Nat))
    (dataUrl : String) (s : AppState) : AppState :=
  if isImageType file.type then
    if s.originalImage.isSome || s.processedImage.isSome then
      handleImageFile file parseRes thumbRes dataUrl (handleReset s)
    else
      handleImageFile file parseRes thumbRes dataUrl s
  else s

/-- The root `<div>`'s inline `onDrop` handler: like `handleDrop` but the
replace branch calls `saveToHistory()` before `handleReset()`. -/
def rootOnDrop (file : JSFile)
    (parseRes : Except String (Option ParsedMeta))
    (thumbRes : Except String (Option Nat))
    (dataUrl : String) (s : AppState) : AppState :=
  if isImageType file.type then
    if s.originalImage.isSome || s.processedImage.isSome then
      handleImageFile file parseRes thumbRes dataUrl (handleReset (saveToHistory s))
    else
      handleImageFile file parseRes thumbRes dataUrl s
  else s

/-- Observable platform calls and state writes, used to state the order of
operations inside `handleImageFile` and `handleCleanMetadata`. -/
inductive Ev where
  | setIsProcessing (b : Bool)
  | setProcessedImage (v : Option String)
  | setOriginalFileName (v : String)
  | extractMeta
  | setMetadata
  | readAsDataURL
  | setOriginalImage (v : String)
  | saveHist
  | drawImage
  | exportBlob (mime : String) (quality : ℚ)
  | notify (msg : String)
deriving DecidableEq, Repr

/-- The sequence of operations `handleImageFile(file)` performs on the
success path, in source order: the metadata is extracted and stored before
the `FileReader` `onload` callback stores the data URL. -/
def handleImageFileTrace (name dataUrl : String) : List Ev :=
  [Ev.setIsProcessing true,
   Ev.setProcessedImage none,
   Ev.setOriginalFileName name,
   Ev.extractMeta,
   Ev.setMetadata,
   Ev.readAsDataURL,
   Ev.setOriginalImage dataUrl,
   Ev.setIsProcessing false]

/-- The sequence of operations `handleCleanMetadata` performs on the
success path (an original image is loaded, `img.onload` fires, the context
exists and `toBlob` yields a blob): draw to the canvas, export with
`canvas.toBlob(cb, 'image/jpeg', 0.92)`, then store the blob object URL. -/
def handleCleanMetadataTrace (blobUrl : String) : List Ev :=
  [Ev.saveHist,
   Ev.setIsProcessing true,
   Ev.drawImage,
   Ev.exportBlob "image/jpeg" (92 / 100),
   Ev.setProcessedImage (some blobUrl),
   Ev.setIsProcessing false,
   Ev.notify "Metadata removed successfully"]

/-- The regex replace `name.replace(/\.[^/.]+$/, '')` on the character
list of the file name.  The pattern matches a final `'.'` followed by one
or more characters none of which is `'.'` or `'/'`; when it matches, that
suffix is removed, otherwise the name is unchanged.  Computed from the end:
`span` splits the reversed name into the maximal final run of
non-`'.'`/non-`'/'` characters and the rest; the pattern matches exactly
when that run is non-empty and the rest starts with `'.'`. -/
def stripExtChars (cs : List Char) : List Char :=
  match (cs.reverse).span (fun c => !(c == '.' || c == '/')) with
  | (ext, '.' :: rest) => if ext.isEmpty then cs else rest.reverse
  | _ => cs

/-- `originalFileName.replace(/\.[^/.]+$/, '') + '_clean.jpg'` from
`handleDownload`. -/
def downloadFileName (originalFileName : String) : String :=
  ⟨stripExtChars originalFileName.data⟩ ++ "_clean.jpg"

/-- `handleDownload`: nothing happens without a processed image; otherwise
the anchor gets `href = processedImage` and `download = downloadFileName`.
The result is the `(href, download)` pair of the clicked link. -/
def handleDownload (s : AppState) : Option (String × String) :=
  match s.processedImage with
  | none => none
  | some url => some (url, downloadFileName s.originalFileName)

/-! ## Theorems -/

/-- C6: `extractMetadata` returns normally for every input file and every
behaviour of the `exifr` calls (it is a total function into `ExifData`);
the returned object always starts with the `'File Info'` entry built from
the file's name, size, type and last-modified time, and when the parser
throws, the error is recorded under `'Extraction Error'`. -/
theorem extractMetadata_error_handling (file : JSFile)
    (parseRes : Except String (Option ParsedMeta))
    (thumbRes : Except String (Option Nat)) :
    (extractMetadata file parseRes thumbRes).head? =
      some ("File Info",
        MetaVal.info file.name file.size file.type file.lastModified) ∧
    (∀ e, parseRes = Except.error e →
      ("Extraction Error", MetaVal.err e) ∈
        extractMetadata file parseRes thumbRes) := by
  constructor
  · cases parseRes with
    | error e => simp [extractMetadata]
    | ok am =>
        cases thumbRes with
        | error e => simp [extractMetadata]
        | ok t => cases t <;> simp [extractMetadata]
  · intro e he
    subst he
    simp [extractMetadata]

/-- Witness for `extractMetadata_error_handling` at a concrete file and a
throwing parser. -/
theorem extractMetadata_error_handling_witness :
    ("Extraction Error", MetaVal.err "TypeError: boom") ∈
      extractMetadata ⟨"photo.jpg", 2048, "image/jpeg", 1700000000000⟩
        (Except.error "TypeError: boom") (Except.ok none) :=
  (extractMetadata_error_handling ⟨"photo.jpg", 2048, "image/jpeg", 1700000000000⟩
      (Except.error "TypeError: boom") (Except.ok none)).2
    "TypeError: boom" rfl

/-- C9: `handleUndo` on an empty past stack and `handleRedo` on an empty
future stack leave the whole state unchanged. -/
theorem undo_redo_noop_on_empty (s t : AppState)
    (hs : s.history = []) (ht : t.futureHistory = []) :
    handleUndo s = s ∧ handleRedo t = t := by
  constructor
  · simp [handleUndo, hs]
  · simp [handleRedo, ht]

/-- Witness for `undo_redo_noop_on_empty` at a concrete state with empty
stacks. -/
theorem undo_redo_noop_on_empty_witness :
    handleUndo ⟨some "u", "a.png", none, none, [], [], false⟩ =
        ⟨some "u", "a.png", none, none, [], [], false⟩ ∧
      handleRedo ⟨some "u", "a.png", none, none, [], [], false⟩ =
        ⟨some "u", "a.png", none, none, [], [], false⟩ :=
  undo_redo_noop_on_empty _ _ rfl rfl

/-- C3: on a non-empty past stack, `handleUndo` removes exactly the last
(most recently pushed) snapshot from the past stack, prepends the snapshot
of the current four fields to the future stack, and restores the four
fields from the removed snapshot; symmetrically, `handleRedo` consumes the
front of the future stack, appends the current snapshot to the past stack,
and restores the four fields from the consumed snapshot. -/
theorem undo_redo_pop_restore (s t : AppState) (prev next : HistoryState)
    (rest₁ : List HistoryState) (rest₂ : List HistoryState)
    (hu : s.history = rest₁ ++ [prev]) (hr : t.futureHistory = next :: rest₂) :
    handleUndo s =
      { s with
        originalImage := prev.originalImage
        originalFileName := prev.originalFileName
        metadata := prev.metadata
        processedImage := prev.processedImage
        history := rest₁
        futureHistory := snapshotOf s :: s.futureHistory } ∧
    handleRedo t =
      { t with
        originalImage := next.originalImage
        originalFileName := next.originalFileName
        metadata := next.metadata
        processedImage := next.processedImage
        history := t.history ++ [snapshotOf t]
        futureHistory := rest₂ } := by
  constructor
  · simp [handleUndo, hu, List.getLast?_concat, List.dropLast_concat]
  · simp [handleRedo, hr]

/-- A concrete snapshot used in witnesses. -/
def snapA : HistoryState := ⟨some "imgA", "a.png", none, none⟩

/-- A second concrete snapshot used in witnesses. -/
def snapB : HistoryState := ⟨some "imgB", "b.jpg", none, some "procB"⟩

/-- A concrete loaded state with one past and one future snapshot. -/
def stateWithPast : AppState :=
  ⟨some "cur", "cur.png", none, none, [snapA], [snapB], false⟩

/-- A concrete image file used in witnesses and counterexamples. -/
def pastedFile : JSFile := ⟨"new.jpg", 10, "image/jpeg", 5⟩

/-- Witness for `undo_redo_pop_restore` at `stateWithPast`. -/
theorem undo_redo_pop_restore_witness :
    handleUndo stateWithPast =
      { stateWithPast with
        originalImage := snapA.originalImage
        originalFileName := snapA.originalFileName
        metadata := snapA.metadata
        processedImage := snapA.processedImage
        history := []
        futureHistory := snapshotOf stateWithPast :: stateWithPast.futureHistory } ∧
    handleRedo stateWithPast =
      { stateWithPast with
        originalImage := snapB.originalImage
        originalFileName := snapB.originalFileName
        metadata := snapB.metadata
        processedImage := snapB.processedImage
        history := stateWithPast.history ++ [snapshotOf stateWithPast]
        futureHistory := [] } :=
  undo_redo_pop_restore stateWithPast stateWithPast snapA snapB [] [] rfl rfl

/-- C4: on a non-empty past stack, `handleUndo` followed by `handleRedo`
restores the whole state — the four fields and both stacks. -/
theorem undo_then_redo_is_identity (s : AppState) (h : s.history ≠ []) :
    handleRedo (handleUndo s) = s := by
  obtain ⟨L, b, hL⟩ := (List.eq_nil_or_concat s.history).resolve_left h
  obtain ⟨poi, pofn, pmd, ppi⟩ := b
  obtain ⟨oi, ofn, md, pi, hist, fut, proc⟩ := s
  simp only [List.concat_eq_append] at hL
  subst hL
  simp [handleUndo, handleRedo, snapshotOf, List.getLast?_concat,
    List.dropLast_concat]

/-- Witness for `undo_then_redo_is_identity` at `stateWithPast`. -/
theorem undo_then_redo_is_identity_witness :
    handleRedo (handleUndo stateWithPast) = stateWithPast :=
  undo_then_redo_is_identity stateWithPast (by decide)

/-- C5: a snapshot record consists of exactly the four fields (structure
eta), and every push into either stack — `saveToHistory` and `handleRedo`
into the past stack, `handleUndo` into the future stack — stores exactly
the 4-field record built from the current image data URL, file name,
metadata object and processed image URL. -/
theorem snapshot_records_four_fields (s : AppState) (hs : HistoryState)
    (hpast : s.history ≠ []) (hfut : s.futureHistory ≠ []) :
    hs = HistoryState.mk hs.originalImage hs.originalFileName
        hs.metadata hs.processedImage ∧
    (saveToHistory s).history = s.history ++
      [HistoryState.mk s.originalImage s.originalFileName
        s.metadata s.processedImage] ∧
    (handleUndo s).futureHistory =
      HistoryState.mk s.originalImage s.originalFileName
          s.metadata s.processedImage :: s.futureHistory ∧
    (handleRedo s).history = s.history ++
      [HistoryState.mk s.originalImage s.originalFileName
        s.metadata s.processedImage] := by
  refine ⟨rfl, rfl, ?_, ?_⟩
  · obtain ⟨L, b, hL⟩ := (List.eq_nil_or_concat s.history).resolve_left hpast
    simp only [List.concat_eq_append] at hL
    simp [handleUndo, hL, List.getLast?_concat, snapshotOf]
  · rcases hf : s.futureHistory with _ | ⟨next, rest⟩
    · exact absurd hf hfut
    · simp [handleRedo, hf, snapshotOf]

/-- Witness for `snapshot_records_four_fields` at `stateWithPast`. -/
theorem snapshot_records_four_fields_witness :
    (handleUndo stateWithPast).futureHistory =
      HistoryState.mk (some "cur") "cur.png" none none ::
        stateWithPast.futureHistory :=
  (snapshot_records_four_fields stateWithPast snapA (by decide)
      (by decide)).2.2.1

/-- C8: `saveToHistory` sets the future stack to `[]`, and therefore each
mutating action that pushes a snapshot onto the past stack — cleaning,
paste-replace, Ctrl+D delete, and the root drop replace — leaves an empty
future (redo) stack, discarding all redo history. -/
theorem push_actions_clear_future (s : AppState) (file : JSFile)
    (pr : Except String (Option ParsedMeta)) (tr : Except String (Option Nat))
    (dataUrl : String) (o : CleanOutcome) :
    (saveToHistory s).futureHistory = [] ∧
    (s.originalImage.isSome = true →
      (handleCleanMetadata o s).futureHistory = []) ∧
    ((s.originalImage.isSome || s.processedImage.isSome) = true →
      (handlePasteImage file pr tr dataUrl s).futureHistory = [] ∧
      (handleDeleteImage s).futureHistory = []) ∧
    ((isImageType file.type && (s.originalImage.isSome || s.processedImage.isSome)) = true →
      (rootOnDrop file pr tr dataUrl s).futureHistory = []) := by
  refine ⟨rfl, ?_, ?_, ?_⟩
  · intro h
    rcases ho : s.originalImage with _ | img
    · rw [ho] at h; simp at h
    · cases o <;> simp [handleCleanMetadata, ho, saveToHistory]
  · intro h
    simp [handlePasteImage, handleDeleteImage, h, handleImageFile,
      handleReset, saveToHistory]
  · intro h
    rw [Bool.and_eq_true] at h
    simp [rootOnDrop, h.1, h.2, handleImageFile, handleReset, saveToHistory]

/-- Witness for `push_actions_clear_future` at `stateWithPast` (whose
future stack is non-empty before the action). -/
theorem push_actions_clear_future_witness :
    (handleCleanMetadata (CleanOutcome.success "blob:1") stateWithPast).futureHistory = [] ∧
    (handleDeleteImage stateWithPast).futureHistory = [] :=
  ⟨(push_actions_clear_future stateWithPast pastedFile (Except.ok none)
      (Except.ok none) "d" (CleanOutcome.success "blob:1")).2.1 (by decide),
   ((push_actions_clear_future stateWithPast pastedFile (Except.ok none)
      (Except.ok none) "d" (CleanOutcome.success "blob:1")).2.2.1 (by decide)).2⟩

/-- C2 counterexample: replacing a loaded image through the standalone
`handleDrop` mutates the state (the file name and image change) but pushes
nothing onto the past stack — the pre-action snapshot is NOT saved. -/
theorem handleDrop_replace_pushes_nothing :
    handleDrop pastedFile (Except.ok none) (Except.ok none) "data:new"
        stateWithPast ≠ stateWithPast ∧
    (handleDrop pastedFile (Except.ok none) (Except.ok none) "data:new"
        stateWithPast).history = stateWithPast.history ∧
    (handleDrop pastedFile (Except.ok none) (Except.ok none) "data:new"
        stateWithPast).history ≠
      stateWithPast.history ++ [snapshotOf stateWithPast] := by
  refine ⟨by decide, rfl, by decide⟩

/-- C2 (amended): `handleCleanMetadata`, the paste-replace path, the
Ctrl+D delete and the root drop replace path each push the 4-field
snapshot of the pre-action state onto the past stack before changing the
state; the standalone `handleDrop`'s replace branch is the one exception —
it resets without saving (in the rendered UI that handler only exists
while no image is loaded). -/
theorem mutating_actions_push_pre_snapshot (s : AppState) (file : JSFile)
    (pr : Except String (Option ParsedMeta)) (tr : Except String (Option Nat))
    (dataUrl : String) (o : CleanOutcome) :
    (s.originalImage.isSome = true →
      (handleCleanMetadata o s).history = s.history ++ [snapshotOf s]) ∧
    ((s.originalImage.isSome || s.processedImage.isSome) = true →
      (handlePasteImage file pr tr dataUrl s).history =
        s.history ++ [snapshotOf s] ∧
      (handleDeleteImage s).history = s.history ++ [snapshotOf s] ∧
      (isImageType file.type = true →
        (rootOnDrop file pr tr dataUrl s).history =
          s.history ++ [snapshotOf s])) := by
  refine ⟨?_, ?_⟩
  · intro h
    rcases ho : s.originalImage with _ | img
    · rw [ho] at h; simp at h
    · cases o <;> simp [handleCleanMetadata, ho, saveToHistory]
  · intro h
    refine ⟨?_, ?_, ?_⟩
    · simp [handlePasteImage, h, handleImageFile, handleReset, saveToHistory]
    · simp [handleDeleteImage, h, handleReset, saveToHistory]
    · intro ht
      simp [rootOnDrop, h, ht, handleImageFile, handleReset, saveToHistory]

/-- Witness for `mutating_actions_push_pre_snapshot` at `stateWithPast`. -/
theorem mutating_actions_push_pre_snapshot_witness :
    (handleDeleteImage stateWithPast).history =
      stateWithPast.history ++ [snapshotOf stateWithPast] :=
  ((mutating_actions_push_pre_snapshot stateWithPast pastedFile
      (Except.ok none) (Except.ok none) "d" CleanOutcome.loadError).2
    (by decide)).2.1

/-- `a` occurs strictly before `b` in the event list `l`: `l` splits into
a part containing `a` followed by a part containing `b`. -/
def occursBefore (a b : Ev) (l : List Ev) : Prop :=
  ∃ l₁ l₂, l = l₁ ++ l₂ ∧ a ∈ l₁ ∧ b ∈ l₂

/-- C7: for every accepted file, `handleImageFile` extracts and stores the
metadata before the original image data URL is stored, and
`handleCleanMetadata` draws to the canvas, then exports the blob, and only
then stores the blob object URL as the processed image. -/
theorem processing_pipeline_order (name dataUrl blobUrl : String) :
    occursBefore Ev.extractMeta Ev.setMetadata
      (handleImageFileTrace name dataUrl) ∧
    occursBefore Ev.setMetadata (Ev.setOriginalImage dataUrl)
      (handleImageFileTrace name dataUrl) ∧
    occursBefore Ev.drawImage (Ev.exportBlob "image/jpeg" (92 / 100))
      (handleCleanMetadataTrace blobUrl) ∧
    occursBefore (Ev.exportBlob "image/jpeg" (92 / 100))
      (Ev.setProcessedImage (some blobUrl))
      (handleCleanMetadataTrace blobUrl) := by
  refine ⟨⟨[Ev.setIsProcessing true, Ev.setProcessedImage none,
        Ev.setOriginalFileName name, Ev.extractMeta],
      [Ev.setMetadata, Ev.readAsDataURL, Ev.setOriginalImage dataUrl,
        Ev.setIsProcessing false], rfl, by simp, by simp⟩,
    ⟨[Ev.setIsProcessing true, Ev.setProcessedImage none,
        Ev.setOriginalFileName name, Ev.extractMeta, Ev.setMetadata],
      [Ev.readAsDataURL, Ev.setOriginalImage dataUrl,
        Ev.setIsProcessing false], rfl, by simp, by simp⟩,
    ⟨[Ev.saveHist, Ev.setIsProcessing true, Ev.drawImage],
      [Ev.exportBlob "image/jpeg" (92 / 100),
        Ev.setProcessedImage (some blobUrl), Ev.setIsProcessing false,
        Ev.notify "Metadata removed successfully"], rfl, by simp, by simp⟩,
    ⟨[Ev.saveHist, Ev.setIsProcessing true, Ev.drawImage,
        Ev.exportBlob "image/jpeg" (92 / 100)],
      [Ev.setProcessedImage (some blobUrl), Ev.setIsProcessing false,
        Ev.notify "Metadata removed successfully"], rfl, by simp, by simp⟩⟩

/-- Splitting `takeWhile`/`dropWhile` at the first failing element. -/
theorem takeWhile_dropWhile_split {α : Type} (p : α → Bool) :
    ∀ (l : List α) (x : α) (r : List α),
      (∀ c ∈ l, p c = true) → p x = false →
      (l ++ x :: r).takeWhile p = l ∧ (l ++ x :: r).dropWhile p = x :: r := by
  intro l
  induction l with
  | nil =>
      intro x r _ hx
      simp [List.takeWhile_cons, List.dropWhile_cons, hx]
  | cons a t ih =>
      intro x r hl hx
      have ha : p a = true := hl a (by simp)
      have ht := ih x r (fun c hc => hl c (by simp [hc])) hx
      simp [List.takeWhile_cons, List.dropWhile_cons, ha, ht.1, ht.2]

/-- The regex `/\.[^/.]+$/` matches `'.' :: ext` at the end of the name
when `ext` is a non-empty run of characters other than `'.'` and `'/'`,
and the replace removes exactly that suffix. -/
theorem stripExtChars_strips (base ext : List Char) (hne : ext ≠ [])
    (hext : ∀ c ∈ ext, (c == '.' || c == '/') = false) :
    stripExtChars (base ++ '.' :: ext) = base := by
  have hall : ∀ c ∈ ext.reverse, (fun c => !(c == '.' || c == '/')) c = true := by
    intro c hc
    simp only [List.mem_reverse] at hc
    simp [hext c hc]
  have hdot : (fun c => !(c == '.' || c == '/')) '.' = false := by decide
  have hsplit := takeWhile_dropWhile_split (fun c => !(c == '.' || c == '/'))
    ext.reverse '.' base.reverse hall hdot
  unfold stripExtChars
  rw [show (base ++ '.' :: ext).reverse = ext.reverse ++ '.' :: base.reverse by
        simp,
    List.span_eq_take_drop, hsplit.1, hsplit.2]
  have hrev : ext.reverse.isEmpty = false := by
    rcases ext with _ | ⟨c, t⟩
    · exact absurd rfl hne
    · simp
  simp [hrev]

/-- The regex `/\.[^/.]+$/` cannot match a name without any `'.'`, so the
replace leaves such a name unchanged. -/
theorem stripExtChars_no_dot (cs : List Char)
    (h : ∀ c ∈ cs, (c == '.') = false) :
    stripExtChars cs = cs := by
  unfold stripExtChars
  split
  · rename_i ext rest heq
    exfalso
    have h2 : cs.reverse.dropWhile (fun c => !(c == '.' || c == '/')) =
        '.' :: rest := by
      have h3 := congrArg Prod.snd heq
      simpa [List.span_eq_take_drop] using h3
    have hm : '.' ∈ cs.reverse := by
      have hsub := List.dropWhile_sublist
        (l := cs.reverse) (fun c => !(c == '.' || c == '/'))
      exact hsub.subset (by rw [h2]; exact List.mem_cons_self _ _)
    have hdot := h '.' (List.mem_reverse.mp hm)
    simp at hdot
  · rfl

/-- C10: the export is always `canvas.toBlob(cb, 'image/jpeg', 0.92)`
regardless of the input image's format, and `handleDownload` names the
file by removing the final dot-extension of the original file name
(appending directly when the name has no dot) and appending
`'_clean.jpg'`. -/
theorem clean_export_format_and_download_name (url name : String)
    (base ext : List Char) (s : AppState) (m : String) (q : ℚ) :
    (Ev.exportBlob m q ∈ handleCleanMetadataTrace url →
      m = "image/jpeg" ∧ q = 92 / 100) ∧
    (ext ≠ [] → (∀ c ∈ ext, (c == '.' || c == '/') = false) →
      downloadFileName ⟨base ++ '.' :: ext⟩ = String.mk base ++ "_clean.jpg") ∧
    ((∀ c ∈ name.data, (c == '.') = false) →
      downloadFileName name = name ++ "_clean.jpg") ∧
    (∀ purl, s.processedImage = some purl →
      handleDownload s = some (purl, downloadFileName s.originalFileName)) := by
  refine ⟨?_, ?_, ?_, ?_⟩
  · intro hmem
    simp [handleCleanMetadataTrace] at hmem
    exact ⟨hmem.1, hmem.2⟩
  · intro hne hext
    unfold downloadFileName
    rw [show (String.mk (base ++ '.' :: ext)).data = base ++ '.' :: ext
          from rfl,
      stripExtChars_strips base ext hne hext]
  · intro hnodot
    unfold downloadFileName
    rw [stripExtChars_no_dot name.data hnodot]
  · intro purl hp
    simp [handleDownload, hp]

/-- A concrete state holding a processed image. -/
def stateProcessed : AppState :=
  ⟨some "data:orig", "photo.jpeg", none, some "blob:clean", [], [], false⟩

/-- Witness for `clean_export_format_and_download_name` at concrete
inputs: `photo.jpeg ↦ photo_clean.jpg`, `noext ↦ noext_clean.jpg`, and a
concrete download. -/
theorem clean_export_format_and_download_name_witness :
    downloadFileName ⟨"photo".data ++ '.' :: "jpeg".data⟩ =
        String.mk "photo".data ++ "_clean.jpg" ∧
    downloadFileName "noext" = "noext" ++ "_clean.jpg" ∧
    ("image/jpeg" : String) = "image/jpeg" ∧ (92 / 100 : ℚ) = 92 / 100 ∧
    handleDownload stateProcessed =
      some ("blob:clean", downloadFileName stateProcessed.originalFileName) := by
  obtain ⟨h1, h2, h3, h4⟩ := clean_export_format_and_download_name "blob:x"
    "noext" "photo".data "jpeg".data stateProcessed "image/jpeg" (92 / 100)
  have hm := h1 (by simp [handleCleanMetadataTrace])
  exact ⟨h2 (by decide) (by decide), h3 (by decide), hm.1, hm.2,
    h4 "blob:clean" rfl⟩
